import Mathlib

/-!
Verification of the fu-mensa meal-plan resolution and cache engine.

The Rust sources are shallowly embedded: Rust `String`/`&str` values are
modelled as `List Char`, `chrono::NaiveDate` values as `Nat` (an
order-preserving encoding of the calendar date), `HashMap`/`HashSet`
containers as association lists respectively `Finset`, fallible operations
as `Option`/`Except`, and the asynchronous manager operations as explicit
state passing over the in-memory cache together with oracles standing for
the network and the durable store.  Logging (`tracing::…`) has no
observable effect on the data and is dropped.
-/

namespace Mensa

/-- Rust strings, modelled as their character sequences. -/
abbrev Str := List Char

/-- Embeds a Lean string literal as a `Str`. -/
def str (s : String) : Str := s.data

/-- Models Rust `str::split_once` for a one-character separator: splits at
the first occurrence of `sep`, returning the parts before and after it, or
`none` when `sep` does not occur. -/
def splitOnce (sep : Char) : Str → Option (Str × Str)
  | [] => none
  | c :: rest =>
    if c = sep then some ([], rest)
    else (splitOnce sep rest).map (fun p => (c :: p.1, p.2))

/-- Decimal value of a digit string (used below with all-digit inputs). -/
def digitsToNat (s : Str) : Nat :=
  s.foldl (fun acc c => acc * 10 + (c.toNat - 48)) 0

/-- Models Rust `str::parse::<u32>`: an optional leading `'+'`, then one or
more ASCII digits, whose value must fit in 32 bits. -/
def parseU32 (s : Str) : Option Nat :=
  let digits : Str :=
    match s with
    | '+' :: rest => rest
    | other => other
  if digits.isEmpty then none
  else if digits.all Char.isDigit then
    if digitsToNat digits < 4294967296 then some (digitsToNat digits) else none
  else none

/-- Models Rust `str::trim`: removes leading and trailing whitespace. -/
def trimStr (s : Str) : Str :=
  ((s.dropWhile Char.isWhitespace).reverse.dropWhile Char.isWhitespace).reverse

/-- Traffic-light rating (`Rating` in `processed.rs`). -/
inductive Rating where
  | Red
  | Yellow
  | Green
deriving DecidableEq, Repr

/-- Allergen codes (`MealAllergen` in `processed.rs`). -/
inductive MealAllergen where
  | Gluten
  | Wheat
  | Rye
  | Barley
  | Oats
  | Spelt
  | Hand
  | Crustaceans
  | Eggs
  | Fish
  | Peanuts
  | Nuts
  | Almonds
  | Hazelnut
  | Wallnut
  | Cashew
  | Pecan
  | Paranus
  | Pistacio
  | Macadamia
  | Cellery
  | Soy
  | Mustard
  | MilkProducts
  | Sesame
  | Sulfides
  | Lupine
  | Molluscs
  | NitriteSalt
  | Yeast
deriving DecidableEq, Repr

/-- Additive codes (`MealAddative` in `processed.rs`). -/
inductive MealAddative where
  | Pork
  | Alcohol
  | FlavourEnhancer
  | Waxed
  | Preserved
  | Antioxidants
  | Coloring
  | Phosphate
  | Darkened
  | Phenylalaninsource
  | Sweeteners
  | SmallFishParts
  | Caffeine
  | Chitin
  | Sulfur
  | LaxativeEffect
deriving DecidableEq, Repr

/-- Sustainability attributes (`MealAttribute` in `processed.rs`); no code in
the lookup table produces one, so the set stays empty after parsing. -/
inductive MealAttribute where
  | Vegan
  | Fairtrade
  | ClimateFood
  | Vegetarian
  | SustainableFarming
  | SustainableFishing
  | Frozen
deriving DecidableEq, Repr

/-- Environmental rating bundle (`MealEnvRating` in `processed.rs`). -/
structure MealEnvRating where
  health : Option Rating
  co2 : Option Rating
  h2o : Option Rating
deriving DecidableEq, Repr

/-- Info bundle of a meal (`MealInfo` in `processed.rs`); the Rust
`HashSet` fields are modelled as `Finset`. -/
structure MealInfo where
  env_rating : MealEnvRating
  addatives : Finset MealAddative
  allergens : Finset MealAllergen
  attributes : Finset MealAttribute
deriving DecidableEq

/-- One item of the coded-attribute lookup table (the local `InfoItem` enum
inside `MealInfo::parse`). -/
inductive InfoItem where
  | Addative : MealAddative → InfoItem
  | Allergen : MealAllergen → InfoItem
  | HealthRating : Rating → InfoItem
deriving DecidableEq, Repr

/-- The fixed code lookup table (`InfoItem::from_id` in `processed.rs`):
unrecognized codes map to `none`. -/
def InfoItem.from_id (id : Str) : Option InfoItem :=
  match id with
  | ['0', 'A', 'm', 'p', 'e', 'l', '0'] => some (.HealthRating .Green)
  | ['0', 'A', 'm', 'p', 'e', 'l', '1'] => some (.HealthRating .Yellow)
  | ['0', 'A', 'm', 'p', 'e', 'l', '2'] => some (.HealthRating .Red)
  | ['2'] => some (.Addative .Pork)
  | ['3'] => some (.Addative .Alcohol)
  | ['4'] => some (.Addative .FlavourEnhancer)
  | ['5'] => some (.Addative .Waxed)
  | ['6'] => some (.Addative .Preserved)
  | ['7'] => some (.Addative .Antioxidants)
  | ['8'] => some (.Addative .Coloring)
  | ['9'] => some (.Addative .Phosphate)
  | ['1', '0'] => some (.Addative .Darkened)
  | ['1', '2'] => some (.Addative .Phenylalaninsource)
  | ['1', '3'] => some (.Addative .Sweeteners)
  | ['1', '4'] => some (.Addative .SmallFishParts)
  | ['1', '6'] => some (.Addative .Caffeine)
  | ['1', '7'] => some (.Addative .Chitin)
  | ['1', '9'] => some (.Addative .Sulfur)
  | ['2', '0'] => some (.Addative .LaxativeEffect)
  | ['2', '1'] => some (.Allergen .Gluten)
  | ['2', '1', 'a'] => some (.Allergen .Wheat)
  | ['2', '1', 'b'] => some (.Allergen .Rye)
  | ['2', '1', 'c'] => some (.Allergen .Barley)
  | ['2', '1', 'd'] => some (.Allergen .Oats)
  | ['2', '1', 'e'] => some (.Allergen .Spelt)
  | ['2', '1', 'f'] => some (.Allergen .Hand)
  | ['2', '2'] => some (.Allergen .Crustaceans)
  | ['2', '3'] => some (.Allergen .Eggs)
  | ['2', '4'] => some (.Allergen .Fish)
  | ['2', '5'] => some (.Allergen .Peanuts)
  | ['2', '6'] => some (.Allergen .Nuts)
  | ['2', '6', 'a'] => some (.Allergen .Almonds)
  | ['2', '6', 'b'] => some (.Allergen .Hazelnut)
  | ['2', '6', 'c'] => some (.Allergen .Wallnut)
  | ['2', '6', 'd'] => some (.Allergen .Cashew)
  | ['2', '6', 'e'] => some (.Allergen .Pecan)
  | ['2', '6', 'f'] => some (.Allergen .Paranus)
  | ['2', '6', 'g'] => some (.Allergen .Pistacio)
  | ['2', '6', 'h'] => some (.Allergen .Macadamia)
  | ['2', '7'] => some (.Allergen .Cellery)
  | ['2', '8'] => some (.Allergen .Soy)
  | ['2', '9'] => some (.Allergen .Mustard)
  | ['3', '0'] => some (.Allergen .MilkProducts)
  | ['3', '1'] => some (.Allergen .Sesame)
  | ['3', '2'] => some (.Allergen .Sulfides)
  | ['3', '3'] => some (.Allergen .Lupine)
  | ['3', '4'] => some (.Allergen .Molluscs)
  | ['3', '5'] => some (.Allergen .NitriteSalt)
  | ['3', '6'] => some (.Allergen .Yeast)
  | _ => none

/-- The all-absent info bundle `MealInfo::parse` starts from. -/
def emptyMealInfo : MealInfo where
  env_rating := { health := none, co2 := none, h2o := none }
  addatives := ∅
  allergens := ∅
  attributes := ∅

/-- One step of the accumulation loop in `MealInfo::parse`: set-valued
slots deduplicate (`HashSet::insert`), the single-valued health rating is
overwritten (`Option::replace`, last code wins). -/
def MealInfo.applyItem (info : MealInfo) : InfoItem → MealInfo
  | .Addative a => { info with addatives := insert a info.addatives }
  | .Allergen a => { info with allergens := insert a info.allergens }
  | .HealthRating r =>
    { info with env_rating := { info.env_rating with health := some r } }

/-- Models `MealInfo::parse`: split the coded-attribute string on commas,
map each code through the lookup table dropping unknown codes
(`flat_map`), and fold the recognized items into the bundle. -/
def MealInfo.parse (desc : Str) : MealInfo :=
  ((desc.splitOn ',').filterMap InfoItem.from_id).foldl MealInfo.applyItem
    emptyMealInfo

/-- Models `Price` in `processed.rs` (`eur: u32`, `cent: u8`); the parser
below enforces the ranges. -/
structure Price where
  eur : Nat
  cent : Nat
deriving DecidableEq, Repr

/-- Models `Price::parse`: split at the first comma, parse both parts as
`u32`, reject a cent part of 100 or more. -/
def Price.parse (s : Str) : Option Price :=
  match splitOnce ',' s with
  | none => none
  | some (eur, cent) =>
    match parseU32 eur, parseU32 cent with
    | some e, some c => if c ≥ 100 then none else some { eur := e, cent := c }
    | _, _ => none

/-- Models `MealPrice` in `processed.rs`. -/
structure MealPrice where
  students : Price
  servants : Price
  guests : Price
deriving DecidableEq, Repr

/-- Models `MensaMeal` in `processed.rs`. -/
structure MensaMeal where
  title : Str
  description : Option Str
  price : Option MealPrice
  info : MealInfo
  id : Str
deriving DecidableEq

/-- Models `MealDay` in `processed.rs`: the Rust
`HashMap<String, Vec<MensaMeal>>` of categories is modelled as an
association list in first-insertion order. -/
structure MealDay where
  date : Nat
  categories : List (Str × List MensaMeal)
deriving DecidableEq

/-- Models `raw::ApiMealAttributes`; only `artikel_id` is read by the
conversion, the other two id fields are decorative and omitted. -/
structure ApiMealAttributes where
  artikel_id : Str
deriving DecidableEq

/-- Models `raw::ApiMeal`, restricted to the fields the conversion in
`processed.rs` reads; the remaining upstream fields are decorative. -/
structure ApiMeal where
  category : Str
  kennzeichnungen : Str
  preis1 : Str
  preis2 : Str
  preis3 : Str
  attributes : ApiMealAttributes
  title_clean : Str
  description_clean : Str
  preis_vorhanden : Bool
deriving DecidableEq

/-- Models `raw::ApiDay`, restricted to `datum_iso` (the only field the
conversion reads; the rest are decorative formatting variants). -/
structure ApiDay where
  datum_iso : Str
deriving DecidableEq

/-- Models `raw::ApiPlan`. -/
structure ApiPlan where
  tag : ApiDay
  essen : List ApiMeal
deriving DecidableEq

/-- Models `raw::ApiResult`. -/
structure ApiResult where
  result : List ApiPlan
  mensaname : Str
deriving DecidableEq

/-- Modelled from chrono (an external library): strict
`NaiveDate::parse_from_str(s, "%Y-%m-%d")`.  Three dash-separated decimal
components with the month in 1..12 and the day in 1..31; the date is
encoded as the order-preserving number `y * 10000 + m * 100 + d`. -/
def parseDateIso (s : Str) : Option Nat :=
  match s.splitOn '-' with
  | [y, m, d] =>
    if (!y.isEmpty && y.all Char.isDigit) &&
        (!m.isEmpty && m.all Char.isDigit) &&
        (!d.isEmpty && d.all Char.isDigit) then
      let nm := digitsToNat m
      let nd := digitsToNat d
      if 1 ≤ nm ∧ nm ≤ 12 ∧ 1 ≤ nd ∧ nd ≤ 31 then
        some (digitsToNat y * 10000 + nm * 100 + nd)
      else none
    else none
  | _ => none

/-- Models the per-meal part of `TryFrom<raw::ApiResult> for MealPlan`: a
trimmed-empty description becomes `none`, the price triple is present
exactly when `preis_vorhanden` is set and all three tiers parse (the
`?`-chained closure), and the coded attributes go through
`MealInfo::parse`. -/
def convertMeal (meal : ApiMeal) : MensaMeal :=
  let desc := trimStr meal.description_clean
  { title := meal.title_clean
    description := if desc.isEmpty then none else some desc
    price :=
      if meal.preis_vorhanden then
        match Price.parse meal.preis1, Price.parse meal.preis2,
            Price.parse meal.preis3 with
        | some p1, some p2, some p3 =>
          some { students := p1, servants := p2, guests := p3 }
        | _, _, _ => none
      else none
    info := MealInfo.parse meal.kennzeichnungen
    id := meal.attributes.artikel_id }

/-- Appends a meal to its category group, creating the group if absent
(Rust `categories.entry(meal.category).or_default().push(…)`); `HashMap`
iteration is determinized to first-insertion order. -/
def pushCategory (cats : List (Str × List MensaMeal)) (cat : Str)
    (m : MensaMeal) : List (Str × List MensaMeal) :=
  match cats with
  | [] => [(cat, [m])]
  | (c, ms) :: rest =>
    if c = cat then (c, ms ++ [m]) :: rest
    else (c, ms) :: pushCategory rest cat m

/-- Groups the converted meals of one raw day record by category. -/
def groupMeals (essen : List ApiMeal) : List (Str × List MensaMeal) :=
  essen.foldl (fun cats meal => pushCategory cats meal.category (convertMeal meal)) []

/-- Models `MealPlanParseError` in `processed.rs`. -/
inductive MealPlanParseError where
  | InvalidDate : Str → MealPlanParseError
deriving DecidableEq, Repr

/-- Converts one raw day record, failing on an unparseable date string. -/
def convertDay (v : ApiPlan) : Except MealPlanParseError MealDay :=
  match parseDateIso v.tag.datum_iso with
  | some d => Except.ok { date := d, categories := groupMeals v.essen }
  | none => Except.error (.InvalidDate v.tag.datum_iso)

/-- Models the `collect::<Result<Vec<MealDay>, _>>()` over the mapped day
records: stops at the first date-parse failure. -/
def collectDays : List ApiPlan → Except MealPlanParseError (List MealDay)
  | [] => Except.ok []
  | v :: rest =>
    match convertDay v with
    | Except.error e => Except.error e
    | Except.ok day =>
      match collectDays rest with
      | Except.ok days => Except.ok (day :: days)
      | Except.error e => Except.error e

/-- One step of a stable insertion sort by date: the new element goes in
front of the first strictly greater element, hence after any equal one. -/
def insertSortedDay (m : MealDay) : List MealDay → List MealDay
  | [] => [m]
  | y :: ys => if m.date < y.date then m :: y :: ys else y :: insertSortedDay m ys

/-- Models `days.sort_by_key(|v| v.date)` (a stable sort) by a stable
insertion sort. -/
def sortByDate (l : List MealDay) : List MealDay :=
  l.foldl (fun acc m => insertSortedDay m acc) []

/-- Models `MealPlan` in `processed.rs`. -/
structure MealPlan where
  days : List MealDay
  mensa_name : Str
deriving DecidableEq

/-- Models `MealPlan::new`. -/
def MealPlan.new (mensa_name : Str) : MealPlan :=
  { mensa_name := mensa_name, days := [] }

/-- Models `impl TryFrom<raw::ApiResult> for MealPlan`: convert every day
record (propagating the first date-parse failure), then sort by date. -/
def MealPlan.tryFrom (value : ApiResult) : Except MealPlanParseError MealPlan :=
  match collectDays value.result with
  | Except.error e => Except.error e
  | Except.ok days =>
    Except.ok { days := sortByDate days, mensa_name := value.mensaname }

/-- Models `slice::binary_search_by_key` through its documented contract on
sorted slices: `.inl i` means the key was found at index `i`, `.inr i`
means it is absent and `i` is the sorted insertion point (the scan stops
at the first strictly greater key). -/
def search (k : Nat) : List Nat → Nat ⊕ Nat
  | [] => Sum.inr 0
  | x :: xs =>
    if k < x then Sum.inr 0
    else if k = x then Sum.inl 0
    else Sum.map Nat.succ Nat.succ (search k xs)

/-- The day-list effect of `MealPlan::add_day`: search for the date
argument among the date fields of the stored days; if found the call is a no-op,
otherwise the given `MealDay` is inserted at the computed position. -/
def addDayList (days : List MealDay) (day : Nat) (meals : MealDay) :
    List MealDay :=
  match search day (days.map MealDay.date) with
  | Sum.inl _ => days
  | Sum.inr i => days.insertIdx i meals

/-- Models `MealPlan::add_day`. -/
def MealPlan.add_day (p : MealPlan) (day : Nat) (meals : MealDay) : MealPlan :=
  { p with days := addDayList p.days day meals }

/-- The day-list effect of `MealPlan::remove_day`: remove the found index,
or do nothing when the date is absent. -/
def removeDayList (days : List MealDay) (day : Nat) : List MealDay :=
  match search day (days.map MealDay.date) with
  | Sum.inl i => days.eraseIdx i
  | Sum.inr _ => days

/-- Models `MealPlan::remove_day`. -/
def MealPlan.remove_day (p : MealPlan) (day : Nat) : MealPlan :=
  { p with days := removeDayList p.days day }

/-- Models `MealPlan::get_day_internal`. -/
def MealPlan.get_day_internal (p : MealPlan) (day : Nat) : Option MealDay :=
  match search day (p.days.map MealDay.date) with
  | Sum.inl i => p.days[i]?
  | Sum.inr _ => none

/-- Models `MealPlans` in `processed.rs`: the `HashMap<String, MealPlan>`
is modelled as an association list. -/
structure MealPlans where
  mensas : List (Str × MealPlan)
deriving DecidableEq

/-- Models `MealPlans::key`: the composite string `{language};{facility}`
with the language defaulting to `"en"`. -/
def MealPlans.key (mensa : Str) (lang : Option Str) : Str :=
  (lang.getD (str "en")) ++ ';' :: mensa

/-- Association-list lookup (the `HashMap::get` of the model). -/
def lookupKey : List (Str × MealPlan) → Str → Option MealPlan
  | [], _ => none
  | (k, p) :: rest, key => if k = key then some p else lookupKey rest key

/-- Models `MealPlans::get`. -/
def MealPlans.get (ps : MealPlans) (mensa : Str) (lang : Option Str) :
    Option MealPlan :=
  lookupKey ps.mensas (MealPlans.key mensa lang)

/-- Association-list insert-or-replace (the `HashMap::insert` of the
model); the prior value the Rust method returns is unused by every caller
and omitted. -/
def insertKey : List (Str × MealPlan) → Str → MealPlan → List (Str × MealPlan)
  | [], key, plan => [(key, plan)]
  | (k, p) :: rest, key, plan =>
    if k = key then (k, plan) :: rest else (k, p) :: insertKey rest key plan

/-- Models `MealPlans::insert`. -/
def MealPlans.insert (ps : MealPlans) (mensa : Str) (lang : Option Str)
    (plan : MealPlan) : MealPlans :=
  { mensas := insertKey ps.mensas (MealPlans.key mensa lang) plan }

/-- Models the `MealPlans::mensas` enumeration (named apart from the field
it reads): decode every stored key with `split_once(";")`, dropping keys
without a separator. -/
def MealPlans.mensasList (ps : MealPlans) : List (Str × Str) :=
  (ps.mensas.map Prod.fst).filterMap (splitOnce ';')

/-- Models `MealPlanError` in `routes/data/data.rs`; the transport error
payload is irrelevant here. -/
inductive MealPlanError where
  | Reqwest : MealPlanError
  | ParsePlan : MealPlanParseError → MealPlanError
deriving DecidableEq, Repr

/-- Models the synchronous effect of `MealPlanManager::store_plan` on the
in-memory cache (the detached durable-store write is fire-and-forget and
never observable by the caller). -/
def MealPlanManager.store_plan (data : MealPlans) (mensa : Str)
    (lang : Option Str) (plan : MealPlan) : MealPlans :=
  data.insert mensa lang plan

/-- Models `MealPlanManager::fetch_plan`.  `upstream` is the outcome of
the one HTTP GET issued for this `(mensa, lang)` pair (`Except.error` for
a transport failure).  Returns the result, the new cache state, and the
number of upstream fetches performed (always 1 here). -/
def MealPlanManager.fetch_plan (data : MealPlans)
    (upstream : Except Unit ApiResult) (mensa : Str) (lang : Option Str) :
    Except MealPlanError MealPlan × MealPlans × Nat :=
  match upstream with
  | Except.error _ => (Except.error MealPlanError.Reqwest, data, 1)
  | Except.ok raw =>
    match MealPlan.tryFrom raw with
    | Except.error e => (Except.error (MealPlanError.ParsePlan e), data, 1)
    | Except.ok plan =>
      (Except.ok plan, MealPlanManager.store_plan data mensa lang plan, 1)

/-- Models `MealPlanManager::get_day_internal`: the memory-tier point
lookup. -/
def MealPlanManager.get_day_internal (data : MealPlans) (mensa : Str)
    (lang : Option Str) (day : Nat) : Option MealDay :=
  (data.get mensa lang).bind (fun p => p.get_day_internal day)

/-- Models `MealPlanManager::get_day`.  `collections` is `none` when no
durable store is configured; otherwise it carries the outcome of the
durable-store read for this `(mensa, lang, day)` query (`Except.error` for
a read failure, `Except.ok none` for a clean miss).  `upstream` is as in
`fetch_plan`.  Returns the answer, the new cache state, and the number of
upstream fetches performed. -/
def MealPlanManager.get_day (data : MealPlans)
    (collections : Option (Except Unit (Option MealDay)))
    (upstream : Except Unit ApiResult) (mensa : Str) (lang : Option Str)
    (day : Nat) : Option MealDay × MealPlans × Nat :=
  match MealPlanManager.get_day_internal data mensa lang day with
  | some v => (some v, data, 0)
  | none =>
    match collections with
    | some dbRead =>
      ((match dbRead with
        | Except.ok v => v
        | Except.error _ => none), data, 0)
    | none =>
      match MealPlanManager.fetch_plan data upstream mensa lang with
      | (Except.ok plan, data2, n) => (plan.get_day_internal day, data2, n)
      | (Except.error _, data2, n) => (none, data2, n)

/-- Models `MealPlanManager::fetch_all`.  `upstreams` maps the argument
pair of each issued `fetch_plan` call to its outcome.  Returns the final
cache state and, in order, the `(mensa, lang)` argument pairs of the
issued fetches.  The Rust loop destructures each decoded key pair as
`(mensa, lang)` and calls `fetch_plan(&mensa, Some(&lang))`, so the first
component of each enumerated pair becomes the facility argument. -/
def MealPlanManager.fetch_all (data : MealPlans)
    (upstreams : Str → Option Str → Except Unit ApiResult) :
    MealPlans × List (Str × Option Str) :=
  (data.mensasList).foldl
    (fun acc p =>
      let mensa := p.1
      let lang := p.2
      let r := MealPlanManager.fetch_plan acc.1 (upstreams mensa (some lang))
        mensa (some lang)
      (r.2.1, acc.2 ++ [(mensa, some lang)]))
    (data, [])

/-- Test harness: a sequence of `add_day` calls applied to an initially
empty plan. -/
def buildPlan (name : Str) (l : List (Nat × MealDay)) : MealPlan :=
  l.foldl (fun p q => p.add_day q.1 q.2) (MealPlan.new name)

/-- The empty in-memory cache (`MealPlans::default`). -/
def emptyCache : MealPlans := { mensas := [] }

/-- A raw day record with the given ISO date string and no meals. -/
def dayRecord (s : String) : ApiPlan :=
  { tag := { datum_iso := str s }, essen := [] }

/-- A raw payload with one well-formed day (2024-01-02). -/
def oneDayPayload : ApiResult :=
  { result := [dayRecord "2024-01-02"], mensaname := str "M" }

/-- A raw payload repeating the same date twice. -/
def dupPayload : ApiResult :=
  { result := [dayRecord "2024-01-02", dayRecord "2024-01-02"],
    mensaname := str "M" }

/-- A raw payload whose single date string does not parse. -/
def badPayload : ApiResult :=
  { result := [dayRecord "garbage"], mensaname := str "M" }

/-- A meal day with the given date and no categories. -/
def bareDay (d : Nat) : MealDay := { date := d, categories := [] }

/-- A raw meal with the price flag set and three parseable tiers. -/
def mealW : ApiMeal where
  category := str "Main"
  kennzeichnungen := str ""
  preis1 := str "3,50"
  preis2 := str "2,00"
  preis3 := str "4,10"
  attributes := { artikel_id := str "a1" }
  title_clean := str "Soup"
  description_clean := str ""
  preis_vorhanden := true

/-- The plan `oneDayPayload` converts to. -/
def planOne : MealPlan :=
  { days := [bareDay 20240102], mensa_name := str "M" }

/-- A cache holding exactly the key for facility "mensa1" in language
"de". -/
def swappedCache : MealPlans :=
  { mensas := [(MealPlans.key (str "mensa1") (some (str "de")),
    MealPlan.new (str "N"))] }

/-- A cache with two known pairs. -/
def twoPairCache : MealPlans :=
  { mensas := [(MealPlans.key (str "m1") (some (str "de")),
    MealPlan.new (str "A")),
    (MealPlans.key (str "m2") (some (str "fr")), MealPlan.new (str "B"))] }

/-! ### Helper lemmas about the binary-search model and the day list -/

theorem search_inl_mem {k : Nat} :
    ∀ {keys : List Nat} {i : Nat}, search k keys = Sum.inl i → k ∈ keys := by
  intro keys
  induction keys with
  | nil => intro i h; simp [search] at h
  | cons x xs ih =>
    intro i h
    simp only [search] at h
    by_cases h1 : k < x
    · simp [h1] at h
    · by_cases h2 : k = x
      · exact h2 ▸ List.mem_cons_self x xs
      · simp only [h1, h2, if_false] at h
        rcases hs : search k xs with j | j
        · exact List.mem_cons_of_mem x (ih hs)
        · rw [hs] at h; simp [Sum.map] at h

theorem search_inl_of_mem {k : Nat} :
    ∀ {keys : List Nat}, List.Pairwise (· < ·) keys → k ∈ keys →
    ∃ i, search k keys = Sum.inl i := by
  intro keys
  induction keys with
  | nil => intro _ h; simp at h
  | cons x xs ih =>
    intro hs hm
    rw [List.pairwise_cons] at hs
    by_cases h2 : k = x
    · exact ⟨0, by simp [search, h2]⟩
    · have hk : k ∈ xs := by
        rcases List.mem_cons.mp hm with h | h
        · exact absurd h h2
        · exact h
      have hx : x < k := hs.1 k hk
      obtain ⟨i, hi⟩ := ih hs.2 hk
      refine ⟨i + 1, ?_⟩
      simp [search, Nat.not_lt_of_lt hx, h2, hi, Sum.map]

theorem search_inr_of_not_mem {k : Nat} :
    ∀ {keys : List Nat}, k ∉ keys → ∃ i, search k keys = Sum.inr i := by
  intro keys hm
  rcases h : search k keys with i | i
  · exact absurd (search_inl_mem h) hm
  · exact ⟨i, rfl⟩

theorem search_inr_countP {k : Nat} :
    ∀ {keys : List Nat}, List.Pairwise (· < ·) keys → k ∉ keys →
    search k keys = Sum.inr (keys.countP (fun x => decide (x < k))) := by
  intro keys
  induction keys with
  | nil => intro _ _; simp [search]
  | cons x xs ih =>
    intro hs hm
    rw [List.pairwise_cons] at hs
    have h2 : ¬ k = x := fun h => hm (h ▸ List.mem_cons_self x xs)
    by_cases h1 : k < x
    · have hz : List.countP (fun y => decide (y < k)) (x :: xs) = 0 := by
        rw [List.countP_eq_zero]
        intro a ha
        simp only [decide_eq_true_eq]
        rcases List.mem_cons.mp ha with h | h
        · subst h; omega
        · have := hs.1 a h; omega
      simp [search, h1, hz]
    · have hx : x < k := by omega
      have hrec := ih hs.2 (fun h => hm (List.mem_cons_of_mem x h))
      rw [List.countP_cons_of_pos _ _ (by simpa using hx)]
      simp [search, h1, h2, hrec, Sum.map]

theorem addDayList_sorted_mem (k : Nat) (m : MealDay) :
    ∀ (days : List MealDay),
    List.Pairwise (fun a b => a.date < b.date) days → m.date = k →
    List.Pairwise (fun a b => a.date < b.date) (addDayList days k m) ∧
    ∀ y ∈ addDayList days k m, y = m ∨ y ∈ days := by
  intro days
  induction days with
  | nil =>
    intro _ hm
    refine ⟨by simp [addDayList, search], ?_⟩
    intro y hy
    simp [addDayList, search] at hy
    exact Or.inl hy
  | cons x xs ih =>
    intro hs hm
    rw [List.pairwise_cons] at hs
    obtain ⟨hx, hxs⟩ := hs
    by_cases h1 : k < x.date
    · have heq : addDayList (x :: xs) k m = m :: x :: xs := by
        simp [addDayList, search, h1]
      rw [heq]
      constructor
      · rw [List.pairwise_cons]
        refine ⟨?_, List.Pairwise.cons hx hxs⟩
        intro y hy
        rcases List.mem_cons.mp hy with h | h
        · subst h; omega
        · have := hx y h; omega
      · intro y hy
        rcases List.mem_cons.mp hy with h | h
        · exact Or.inl h
        · exact Or.inr h
    · by_cases h2 : k = x.date
      · have heq : addDayList (x :: xs) k m = x :: xs := by
          simp [addDayList, search, h1, h2]
        rw [heq]
        exact ⟨List.Pairwise.cons hx hxs, fun y hy => Or.inr hy⟩
      · have hlt : x.date < k := by omega
        obtain ⟨ihs, ihm⟩ := ih hxs hm
        rcases hsr : search k (List.map MealDay.date xs) with i | i
        · have heq : addDayList (x :: xs) k m = x :: xs := by
            simp [addDayList, search, h1, h2, hsr, Sum.map]
          rw [heq]
          exact ⟨List.Pairwise.cons hx hxs, fun y hy => Or.inr hy⟩
        · have hxsrec : addDayList xs k m = xs.insertIdx i m := by
            simp [addDayList, hsr]
          have heq : addDayList (x :: xs) k m = x :: xs.insertIdx i m := by
            simp [addDayList, search, h1, h2, hsr, Sum.map,
              List.insertIdx_succ_cons]
          rw [heq]
          rw [hxsrec] at ihs ihm
          constructor
          · rw [List.pairwise_cons]
            refine ⟨?_, ihs⟩
            intro y hy
            rcases ihm y hy with h | h
            · subst h; omega
            · exact hx y h
          · intro y hy
            rcases List.mem_cons.mp hy with h | h
            · exact Or.inr (h ▸ List.mem_cons_self x xs)
            · rcases ihm y h with h3 | h3
              · exact Or.inl h3
              · exact Or.inr (List.mem_cons_of_mem x h3)

theorem addDayList_noop {days : List MealDay} {k : Nat} (m : MealDay)
    (hs : List.Pairwise (fun a b => a.date < b.date) days)
    (hm : k ∈ days.map MealDay.date) : addDayList days k m = days := by
  have hmap : List.Pairwise (· < ·) (days.map MealDay.date) :=
    List.Pairwise.map MealDay.date (fun a b h => h) hs
  obtain ⟨i, hi⟩ := search_inl_of_mem hmap hm
  simp [addDayList, hi]

theorem addDayList_insert {days : List MealDay} {k : Nat} (m : MealDay)
    (hm : k ∉ days.map MealDay.date) :
    ∃ i, search k (days.map MealDay.date) = Sum.inr i ∧
      addDayList days k m = days.insertIdx i m := by
  obtain ⟨i, hi⟩ := search_inr_of_not_mem hm
  exact ⟨i, hi, by simp [addDayList, hi]⟩

theorem removeDayList_eq_filter :
    ∀ (days : List MealDay) (k : Nat),
    List.Pairwise (fun a b => a.date < b.date) days →
    removeDayList days k = days.filter (fun y => y.date ≠ k) := by
  intro days
  induction days with
  | nil => intro k _; simp [removeDayList, search]
  | cons x xs ih =>
    intro k hs
    rw [List.pairwise_cons] at hs
    obtain ⟨hx, hxs⟩ := hs
    by_cases h1 : k < x.date
    · have heq : removeDayList (x :: xs) k = x :: xs := by
        simp [removeDayList, search, h1]
      rw [heq, Eq.comm, List.filter_eq_self]
      intro a ha
      simp only [ne_eq, decide_eq_true_eq]
      rcases List.mem_cons.mp ha with h | h
      · subst h; omega
      · have := hx a h; omega
    · by_cases h2 : k = x.date
      · have heq : removeDayList (x :: xs) k = xs := by
          simp [removeDayList, search, h1, h2]
        rw [heq]
        have hxf : (decide (x.date ≠ k)) = false := by simp [h2]
        rw [List.filter_cons_of_neg (by simpa using hxf), Eq.comm,
            List.filter_eq_self]
        intro a ha
        simp only [ne_eq, decide_eq_true_eq]
        have := hx a ha; omega
      · have hlt : x.date < k := by omega
        have hxt : (fun y => decide (y.date ≠ k)) x = true := by
          simp only [decide_eq_true_eq]; omega
        rcases hsr : search k (List.map MealDay.date xs) with i | i
        · have heq : removeDayList (x :: xs) k = x :: xs.eraseIdx i := by
            simp [removeDayList, search, h1, h2, hsr, Sum.map,
              List.eraseIdx_cons_succ]
          have hrec : removeDayList xs k = xs.eraseIdx i := by
            simp [removeDayList, hsr]
          rw [heq, List.filter_cons]
          simp only [hxt, if_true]
          rw [← ih k hxs, hrec]
        · have heq : removeDayList (x :: xs) k = x :: xs := by
            simp [removeDayList, search, h1, h2, hsr, Sum.map]
          have hrec : removeDayList xs k = xs := by
            simp [removeDayList, hsr]
          rw [heq, List.filter_cons]
          simp only [hxt, if_true]
          rw [← ih k hxs, hrec]

/-! ### Helper lemmas about the sort used at construction time -/

theorem insertSortedDay_sorted_mem (m : MealDay) :
    ∀ (acc : List MealDay),
    List.Pairwise (fun a b => a.date ≤ b.date) acc →
    List.Pairwise (fun a b => a.date ≤ b.date) (insertSortedDay m acc) ∧
    ∀ y ∈ insertSortedDay m acc, y = m ∨ y ∈ acc := by
  intro acc
  induction acc with
  | nil =>
    intro _
    refine ⟨by simp [insertSortedDay], ?_⟩
    intro y hy
    simp [insertSortedDay] at hy
    exact Or.inl hy
  | cons x xs ih =>
    intro hs
    rw [List.pairwise_cons] at hs
    obtain ⟨hx, hxs⟩ := hs
    by_cases h1 : m.date < x.date
    · have heq : insertSortedDay m (x :: xs) = m :: x :: xs := by
        simp [insertSortedDay, h1]
      rw [heq]
      constructor
      · rw [List.pairwise_cons]
        refine ⟨?_, List.Pairwise.cons hx hxs⟩
        intro y hy
        rcases List.mem_cons.mp hy with h | h
        · subst h; omega
        · have := hx y h; omega
      · intro y hy
        rcases List.mem_cons.mp hy with h | h
        · exact Or.inl h
        · exact Or.inr h
    · have heq : insertSortedDay m (x :: xs) = x :: insertSortedDay m xs := by
        simp [insertSortedDay, h1]
      rw [heq]
      obtain ⟨ihs, ihm⟩ := ih hxs
      constructor
      · rw [List.pairwise_cons]
        refine ⟨?_, ihs⟩
        intro y hy
        rcases ihm y hy with h | h
        · subst h; omega
        · exact hx y h
      · intro y hy
        rcases List.mem_cons.mp hy with h | h
        · exact Or.inr (h ▸ List.mem_cons_self x xs)
        · rcases ihm y h with h3 | h3
          · exact Or.inl h3
          · exact Or.inr (List.mem_cons_of_mem x h3)

theorem insertSortedDay_perm (m : MealDay) :
    ∀ (acc : List MealDay), List.Perm (insertSortedDay m acc) (m :: acc) := by
  intro acc
  induction acc with
  | nil => simp [insertSortedDay]
  | cons x xs ih =>
    by_cases h1 : m.date < x.date
    · simp [insertSortedDay, h1]
    · have heq : insertSortedDay m (x :: xs) = x :: insertSortedDay m xs := by
        simp [insertSortedDay, h1]
      rw [heq]
      exact (List.Perm.cons x ih).trans (List.Perm.swap m x xs)

theorem sortByDate_sorted_aux :
    ∀ (l acc : List MealDay),
    List.Pairwise (fun a b => a.date ≤ b.date) acc →
    List.Pairwise (fun a b => a.date ≤ b.date)
      (l.foldl (fun acc m => insertSortedDay m acc) acc) := by
  intro l
  induction l with
  | nil => intro acc h; simpa using h
  | cons m rest ih =>
    intro acc h
    exact ih (insertSortedDay m acc) ((insertSortedDay_sorted_mem m acc h).1)

theorem sortByDate_sorted (l : List MealDay) :
    List.Pairwise (fun a b => a.date ≤ b.date) (sortByDate l) :=
  sortByDate_sorted_aux l [] (by simp)

theorem sortByDate_perm_aux :
    ∀ (l acc : List MealDay),
    List.Perm (l.foldl (fun acc m => insertSortedDay m acc) acc) (acc ++ l) := by
  intro l
  induction l with
  | nil => intro acc; simp
  | cons m rest ih =>
    intro acc
    have h1 := ih (insertSortedDay m acc)
    have h2 : List.Perm (insertSortedDay m acc ++ rest) ((m :: acc) ++ rest) :=
      List.Perm.append_right rest (insertSortedDay_perm m acc)
    have h3 : List.Perm ((m :: acc) ++ rest) (acc ++ m :: rest) :=
      List.perm_middle.symm
    exact (h1.trans h2).trans h3

theorem sortByDate_perm (l : List MealDay) : List.Perm (sortByDate l) l :=
  sortByDate_perm_aux l []

theorem sorted_lt_of_le_nodup {days : List MealDay}
    (hle : List.Pairwise (fun a b => a.date ≤ b.date) days)
    (hnd : (days.map MealDay.date).Nodup) :
    List.Pairwise (fun a b => a.date < b.date) days := by
  have hne : List.Pairwise (fun a b : MealDay => a.date ≠ b.date) days :=
    List.pairwise_map.mp hnd
  exact (hle.and hne).imp (fun h => Nat.lt_of_le_of_ne h.1 h.2)

/-! ### Helper lemmas about key splitting and the keyed cache -/

theorem splitOnce_not_mem {sep : Char} :
    ∀ {s : Str}, sep ∉ s → splitOnce sep s = none := by
  intro s
  induction s with
  | nil => intro _; rfl
  | cons c rest ih =>
    intro h
    have hc : ¬ c = sep := fun hc => h (hc ▸ List.mem_cons_self c rest)
    have hr : sep ∉ rest := fun hr => h (List.mem_cons_of_mem c hr)
    simp [splitOnce, hc, ih hr]

theorem splitOnce_append {sep : Char} :
    ∀ (a b : Str), sep ∉ a → splitOnce sep (a ++ sep :: b) = some (a, b) := by
  intro a
  induction a with
  | nil => intro b _; simp [splitOnce]
  | cons c rest ih =>
    intro b h
    have hc : ¬ c = sep := fun hc => h (hc ▸ List.mem_cons_self c rest)
    have hr : sep ∉ rest := fun hr => h (List.mem_cons_of_mem c hr)
    simp [splitOnce, hc, ih b hr]

theorem lookupKey_insertKey :
    ∀ (xs : List (Str × MealPlan)) (k : Str) (v : MealPlan),
    lookupKey (insertKey xs k v) k = some v := by
  intro xs
  induction xs with
  | nil => intro k v; simp [insertKey, lookupKey]
  | cons p rest ih =>
    intro k v
    by_cases h : p.1 = k
    · simp [insertKey, lookupKey, h]
    · simp [insertKey, lookupKey, h, ih]

theorem key_mem_insertKey :
    ∀ (xs : List (Str × MealPlan)) (k : Str) (v : MealPlan),
    k ∈ (insertKey xs k v).map Prod.fst := by
  intro xs
  induction xs with
  | nil => intro k v; simp [insertKey]
  | cons p rest ih =>
    intro k v
    obtain ⟨pk, pv⟩ := p
    by_cases h : pk = k
    · subst h
      rw [show insertKey ((pk, pv) :: rest) pk v = (pk, v) :: rest from by
        simp [insertKey]]
      rw [List.map_cons]
      exact List.mem_cons_self pk _
    · rw [show insertKey ((pk, pv) :: rest) k v = (pk, pv) :: insertKey rest k v
        from by simp [insertKey, h]]
      rw [List.map_cons]
      exact List.mem_cons_of_mem pk (ih k v)

/-! ### Helper lemmas about the raw-payload conversion -/

theorem collectDays_isOk :
    ∀ (l : List ApiPlan),
    (∀ r ∈ l, (parseDateIso r.tag.datum_iso).isSome) →
    ∃ days, collectDays l = Except.ok days := by
  intro l
  induction l with
  | nil => intro _; exact ⟨[], rfl⟩
  | cons v rest ih =>
    intro h
    have hv := h v (List.mem_cons_self v rest)
    rcases hd : parseDateIso v.tag.datum_iso with _ | d
    · rw [hd] at hv; simp at hv
    · obtain ⟨days, hdays⟩ := ih (fun r hr => h r (List.mem_cons_of_mem v hr))
      refine ⟨{ date := d, categories := groupMeals v.essen } :: days, ?_⟩
      simp [collectDays, convertDay, hd, hdays]

theorem collectDays_error :
    ∀ (l : List ApiPlan) (r : ApiPlan), r ∈ l →
    parseDateIso r.tag.datum_iso = none →
    ∃ s, collectDays l = Except.error (MealPlanParseError.InvalidDate s) ∧
      parseDateIso s = none := by
  intro l
  induction l with
  | nil => intro r hr; simp at hr
  | cons v rest ih =>
    intro r hr hnone
    rcases hd : parseDateIso v.tag.datum_iso with _ | d
    · exact ⟨v.tag.datum_iso, by simp [collectDays, convertDay, hd], hd⟩
    · have hrrest : r ∈ rest := by
        rcases List.mem_cons.mp hr with h | h
        · subst h; rw [hd] at hnone; simp at hnone
        · exact h
      obtain ⟨s, hs, hns⟩ := ih r hrrest hnone
      refine ⟨s, ?_, hns⟩
      simp [collectDays, convertDay, hd, hs]

theorem pushCategory_sum :
    ∀ (cats : List (Str × List MensaMeal)) (c : Str) (m : MensaMeal),
    ((pushCategory cats c m).map (fun p => p.2.length)).sum =
      (cats.map (fun p => p.2.length)).sum + 1 := by
  intro cats
  induction cats with
  | nil => intro c m; simp [pushCategory]
  | cons p rest ih =>
    intro c m
    by_cases h : p.1 = c
    · simp [pushCategory, h]
      omega
    · simp [pushCategory, h, ih]
      omega

theorem groupMeals_sum_aux :
    ∀ (essen : List ApiMeal) (cats : List (Str × List MensaMeal)),
    ((essen.foldl (fun cats meal =>
        pushCategory cats meal.category (convertMeal meal)) cats).map
      (fun p => p.2.length)).sum =
      (cats.map (fun p => p.2.length)).sum + essen.length := by
  intro essen
  induction essen with
  | nil => intro cats; simp
  | cons meal rest ih =>
    intro cats
    simp only [List.foldl_cons, List.length_cons]
    rw [ih, pushCategory_sum]
    omega

theorem groupMeals_sum (essen : List ApiMeal) :
    ((groupMeals essen).map (fun p => p.2.length)).sum = essen.length := by
  have := groupMeals_sum_aux essen []
  simpa [groupMeals] using this

theorem buildPlan_sorted_aux :
    ∀ (l : List (Nat × MealDay)) (p : MealPlan),
    List.Pairwise (fun a b => a.date < b.date) p.days →
    (∀ q ∈ l, (q.2).date = q.1) →
    List.Pairwise (fun a b => a.date < b.date)
      (l.foldl (fun p q => p.add_day q.1 q.2) p).days := by
  intro l
  induction l with
  | nil => intro p hp _; simpa using hp
  | cons q rest ih =>
    intro p hp hl
    simp only [List.foldl_cons]
    refine ih (p.add_day q.1 q.2) ?_ (fun r hr => hl r (List.mem_cons_of_mem q hr))
    exact (addDayList_sorted_mem q.1 q.2 p.days hp
      (hl q (List.mem_cons_self q rest))).1

/-! ### Claim theorems -/

/-- C6: the coded-attribute parser splits on commas and maps codes through
the fixed table: "21a" yields the Wheat allergen, "0Ampel1" yields the
Yellow rating, the unknown code "999" is silently dropped, of two rating
codes only the last is kept in the single-valued rating slot, and
set-valued slots deduplicate. -/
theorem C6_coded_attributes :
    MealInfo.parse (str "21a") =
      { emptyMealInfo with allergens := {MealAllergen.Wheat} } ∧
    MealInfo.parse (str "0Ampel1") =
      { emptyMealInfo with
        env_rating := { health := some Rating.Yellow, co2 := none, h2o := none } } ∧
    MealInfo.parse (str "999") = emptyMealInfo ∧
    (MealInfo.parse (str "0Ampel0,0Ampel2")).env_rating.health =
      some Rating.Red ∧
    MealInfo.parse (str "21a,21a") =
      { emptyMealInfo with allergens := {MealAllergen.Wheat} } ∧
    MealInfo.parse (str "2,2") =
      { emptyMealInfo with addatives := {MealAddative.Pork} } := by
  exact ⟨by decide, by decide, by decide, by decide, by decide, by decide⟩

/-- C4 counterexample: the claim says the price parser rejects "3,5"
because the cent part is not written with two digits; the parser in fact
accepts it as 3 euro 5 cent. -/
theorem C4_counterexample :
    Price.parse (str "3,5") = some { eur := 3, cent := 5 } := by decide

/-- C4 (amended): the price parser accepts exactly the strings made of a
u32 euro part and a u32 cent part in [0,100) separated by the first comma;
two-digit cents are not required ("3,5" parses as 3 euro 5 cent).  It
accepts "0,00", "12,05" and "3,50", and rejects "12,100" (cent at least
100), "abc,50", and any string without a comma. -/
theorem C4_price_parse :
    (∀ (s : Str) (p : Price), Price.parse s = some p ↔
      ∃ e c, splitOnce ',' s = some (e, c) ∧ parseU32 e = some p.eur ∧
        parseU32 c = some p.cent ∧ p.cent < 100) ∧
    Price.parse (str "0,00") = some { eur := 0, cent := 0 } ∧
    Price.parse (str "12,05") = some { eur := 12, cent := 5 } ∧
    Price.parse (str "3,50") = some { eur := 3, cent := 50 } ∧
    Price.parse (str "12,100") = none ∧
    Price.parse (str "abc,50") = none ∧
    (∀ s : Str, ',' ∉ s → Price.parse s = none) := by
  refine ⟨?_, by decide, by decide, by decide, by decide, by decide, ?_⟩
  · intro s p
    constructor
    · intro h
      rcases hsp : splitOnce ',' s with _ | ⟨e, c⟩
      · simp only [Price.parse, hsp] at h
        exact Option.noConfusion h
      · simp only [Price.parse, hsp] at h
        rcases he : parseU32 e with _ | ev <;>
          rcases hc : parseU32 c with _ | cv <;>
          simp only [he, hc] at h
        · exact Option.noConfusion h
        · exact Option.noConfusion h
        · exact Option.noConfusion h
        · by_cases h100 : cv ≥ 100
          · rw [if_pos h100] at h
            exact Option.noConfusion h
          · rw [if_neg h100] at h
            injection h with h
            subst h
            refine ⟨e, c, ?_, he, hc, ?_⟩
            · rfl
            · show cv < 100
              omega
    · rintro ⟨e, c, hsp, he, hc, h100⟩
      have hn : ¬ p.cent ≥ 100 := by omega
      simp only [Price.parse, hsp, he, hc]
      rw [if_neg hn]
  · intro s h
    simp [Price.parse, splitOnce_not_mem h]

/-- C4 witness: the universally quantified no-comma clause of the amended
claim, applied at the concrete comma-free string "abc". -/
theorem C4_price_parse_witness : Price.parse (str "abc") = none :=
  C4_price_parse.2.2.2.2.2.2 (str "abc") (by decide)

/-- C5 counterexample: for the pair (facility "m", language ";"), decoding
the encoded key does not return the original pair: the key ";;m" splits at
its first separator into ("", ";m"). -/
theorem C5_counterexample :
    splitOnce ';' (MealPlans.key (str "m") (some [';'])) =
      some ([], str ";m") ∧
    splitOnce ';' (MealPlans.key (str "m") (some [';'])) ≠
      some ([';'], str "m") := by
  exact ⟨by decide, by decide⟩

/-- C5 (amended): for every (facility, language) pair whose effective
language (the given one, or the fallback "en" when unspecified) does not
contain the ';' separator, decoding the encoded key returns the original
pair; the enumeration of known pairs, which decodes the stored keys,
contains the decoded pair after the plan is inserted. -/
theorem C5_key_roundtrip :
    (∀ (mensa : Str) (lang : Option Str),
      ';' ∉ lang.getD (str "en") →
      splitOnce ';' (MealPlans.key mensa lang) =
        some (lang.getD (str "en"), mensa)) ∧
    (∀ (ps : MealPlans) (mensa : Str) (lang : Option Str) (plan : MealPlan),
      ';' ∉ lang.getD (str "en") →
      (lang.getD (str "en"), mensa) ∈
        (MealPlans.insert ps mensa lang plan).mensasList) := by
  have hkey : ∀ (mensa : Str) (lang : Option Str),
      ';' ∉ lang.getD (str "en") →
      splitOnce ';' (MealPlans.key mensa lang) =
        some (lang.getD (str "en"), mensa) := by
    intro mensa lang h
    exact splitOnce_append (lang.getD (str "en")) mensa h
  refine ⟨hkey, ?_⟩
  intro ps mensa lang plan h
  rw [MealPlans.mensasList, List.mem_filterMap]
  exact ⟨MealPlans.key mensa lang,
    key_mem_insertKey ps.mensas (MealPlans.key mensa lang) plan,
    hkey mensa lang h⟩

/-- C5 witness: the round-trip and enumeration clauses applied at the
concrete pair (facility "m1", language "de") over the empty cache. -/
theorem C5_key_roundtrip_witness :
    splitOnce ';' (MealPlans.key (str "m1") (some (str "de"))) =
      some (str "de", str "m1") ∧
    (str "de", str "m1") ∈
      (MealPlans.insert emptyCache (str "m1") (some (str "de"))
        (MealPlan.new (str "N"))).mensasList :=
  ⟨C5_key_roundtrip.1 (str "m1") (some (str "de")) (by decide),
    C5_key_roundtrip.2 emptyCache (str "m1") (some (str "de"))
      (MealPlan.new (str "N")) (by decide)⟩

/-- C9: remove_day on an absent date is a no-op; on a present date it
removes exactly the day with that date, after which the date is gone and
the sequence is still strictly sorted. -/
theorem C9_remove_day :
    (∀ (p : MealPlan) (d : Nat),
      List.Pairwise (fun a b => a.date < b.date) p.days →
      d ∉ p.days.map MealDay.date → p.remove_day d = p) ∧
    (∀ (p : MealPlan) (d : Nat),
      List.Pairwise (fun a b => a.date < b.date) p.days →
      d ∈ p.days.map MealDay.date →
      (p.remove_day d).days = p.days.filter (fun y => y.date ≠ d) ∧
      d ∉ (p.remove_day d).days.map MealDay.date ∧
      List.Pairwise (fun a b => a.date < b.date) (p.remove_day d).days) := by
  constructor
  · intro p d hs hm
    have hf := removeDayList_eq_filter p.days d hs
    have hself : p.days.filter (fun y => y.date ≠ d) = p.days := by
      rw [List.filter_eq_self]
      intro a ha
      simp only [ne_eq, decide_eq_true_eq]
      intro hd
      exact hm (hd ▸ List.mem_map_of_mem MealDay.date ha)
    cases p with
    | mk days name =>
      simp only [MealPlan.remove_day] at hf ⊢
      rw [hf, hself]
  · intro p d hs hm
    have hf : (p.remove_day d).days = p.days.filter (fun y => y.date ≠ d) :=
      removeDayList_eq_filter p.days d hs
    refine ⟨hf, ?_, ?_⟩
    · intro hmem
      rw [hf] at hmem
      obtain ⟨y, hy, hyd⟩ := List.mem_map.mp hmem
      have := (List.mem_filter.mp hy).2
      simp only [ne_eq, decide_eq_true_eq] at this
      exact this hyd
    · rw [hf]
      exact hs.sublist (List.filter_sublist p.days)

/-- C9 witness: remove_day applied on a concrete two-day plan, once with
an absent date and once with a present date. -/
theorem C9_remove_day_witness :
    MealPlan.remove_day { days := [bareDay 1, bareDay 2], mensa_name := str "N" } 5 =
      { days := [bareDay 1, bareDay 2], mensa_name := str "N" } ∧
    (MealPlan.remove_day { days := [bareDay 1, bareDay 2], mensa_name := str "N" } 1).days =
      [bareDay 1, bareDay 2].filter (fun y => y.date ≠ 1) :=
  ⟨C9_remove_day.1 { days := [bareDay 1, bareDay 2], mensa_name := str "N" } 5
      (by decide) (by decide),
    (C9_remove_day.2 { days := [bareDay 1, bareDay 2], mensa_name := str "N" } 1
      (by decide) (by decide)).1⟩

/-- C2: any sequence of consistent add_day calls (each passing the day
for the given date) on an initially empty plan yields a day sequence
strictly sorted by date with no duplicate dates; an add_day for a present
date is a no-op leaving the pre-existing day untouched, and an add_day for
an absent date inserts at the position found by the binary search. -/
theorem C2_add_day_invariant :
    (∀ (name : Str) (l : List (Nat × MealDay)),
      (∀ q ∈ l, (q.2).date = q.1) →
      List.Pairwise (fun a b => a.date < b.date) (buildPlan name l).days ∧
      ((buildPlan name l).days.map MealDay.date).Nodup) ∧
    (∀ (p : MealPlan) (d : Nat) (m : MealDay),
      List.Pairwise (fun a b => a.date < b.date) p.days →
      d ∈ p.days.map MealDay.date → p.add_day d m = p) ∧
    (∀ (p : MealPlan) (d : Nat) (m : MealDay),
      d ∉ p.days.map MealDay.date →
      ∃ i, search d (p.days.map MealDay.date) = Sum.inr i ∧
        (p.add_day d m).days = p.days.insertIdx i m) := by
  refine ⟨?_, ?_, ?_⟩
  · intro name l hl
    have hs : List.Pairwise (fun a b => a.date < b.date) (buildPlan name l).days :=
      buildPlan_sorted_aux l (MealPlan.new name) (by simp [MealPlan.new]) hl
    refine ⟨hs, ?_⟩
    exact (List.Pairwise.map MealDay.date (fun a b h => h) hs).imp Nat.ne_of_lt
  · intro p d m hs hm
    have h := addDayList_noop m hs hm
    cases p with
    | mk days name =>
      simp only [MealPlan.add_day] at h ⊢
      rw [h]
  · intro p d m hm
    obtain ⟨i, hi, hadd⟩ := addDayList_insert m hm
    exact ⟨i, hi, hadd⟩

/-- C2 witness: a concrete call sequence with out-of-order and duplicate
dates, plus a concrete present-date no-op and absent-date insertion. -/
theorem C2_add_day_invariant_witness :
    (List.Pairwise (fun a b => a.date < b.date)
      (buildPlan (str "N") [(3, bareDay 3), (1, bareDay 1), (2, bareDay 2), (1, bareDay 1)]).days ∧
      ((buildPlan (str "N") [(3, bareDay 3), (1, bareDay 1), (2, bareDay 2), (1, bareDay 1)]).days.map MealDay.date).Nodup) ∧
    MealPlan.add_day { days := [bareDay 1], mensa_name := str "N" } 1 (bareDay 7) =
      { days := [bareDay 1], mensa_name := str "N" } ∧
    (∃ i, search 2 ([bareDay 1].map MealDay.date) = Sum.inr i ∧
      (MealPlan.add_day { days := [bareDay 1], mensa_name := str "N" } 2 (bareDay 2)).days =
        [bareDay 1].insertIdx i (bareDay 2)) :=
  ⟨C2_add_day_invariant.1 (str "N")
      [(3, bareDay 3), (1, bareDay 1), (2, bareDay 2), (1, bareDay 1)] (by decide),
    C2_add_day_invariant.2.1 { days := [bareDay 1], mensa_name := str "N" } 1
      (bareDay 7) (by decide) (by decide),
    C2_add_day_invariant.2.2 { days := [bareDay 1], mensa_name := str "N" } 2
      (bareDay 2) (by decide)⟩

/-- C10: add_day positions the inserted entry by the date argument (the
insertion index is the number of stored days whose own date is below the
argument, independent of the date field inside the given MealDay); the sortedness
invariant is preserved when the date argument equals the date field of
the MealDay; and a concrete mismatched call from a sorted state inserts the day
out of order, breaking the invariant and making the inserted day
unreachable by a later binary-search lookup on its own date — a
precondition the operation does not check. -/
theorem C10_add_day_position :
    (∀ (p : MealPlan) (d : Nat) (m : MealDay),
      List.Pairwise (fun a b => a.date < b.date) p.days →
      d ∉ p.days.map MealDay.date →
      (p.add_day d m).days =
        p.days.insertIdx (p.days.countP (fun y => decide (y.date < d))) m) ∧
    (∀ (p : MealPlan) (d : Nat) (m : MealDay),
      List.Pairwise (fun a b => a.date < b.date) p.days → m.date = d →
      List.Pairwise (fun a b => a.date < b.date) (p.add_day d m).days) ∧
    (bareDay 0 ∈
      (((MealPlan.new (str "x")).add_day 10 (bareDay 10)).add_day 20 (bareDay 0)).days ∧
    ¬ List.Pairwise (fun a b => a.date < b.date)
      (((MealPlan.new (str "x")).add_day 10 (bareDay 10)).add_day 20 (bareDay 0)).days ∧
    (((MealPlan.new (str "x")).add_day 10 (bareDay 10)).add_day 20 (bareDay 0)).get_day_internal 0 =
      none) := by
  refine ⟨?_, ?_, by decide, by decide, by decide⟩
  · intro p d m hs hm
    have hmap : List.Pairwise (· < ·) (p.days.map MealDay.date) :=
      List.Pairwise.map MealDay.date (fun a b h => h) hs
    have hc := search_inr_countP hmap hm
    rw [List.countP_map] at hc
    simp only [MealPlan.add_day, addDayList, hc]
    rfl
  · intro p d m hs hm
    exact (addDayList_sorted_mem d m p.days hs hm).1

/-- C10 witness: the position clause applied on a concrete sorted plan
(the day dated 5 lands at index 1, counting the one stored date below 5
regardless of the own date field of the inserted day), and the preservation
clause applied with a consistent argument pair. -/
theorem C10_add_day_position_witness :
    (MealPlan.add_day { days := [bareDay 1, bareDay 9], mensa_name := str "N" } 5
        (bareDay 5)).days =
      [bareDay 1, bareDay 9].insertIdx 1 (bareDay 5) ∧
    List.Pairwise (fun a b => a.date < b.date)
      (MealPlan.add_day { days := [bareDay 1, bareDay 9], mensa_name := str "N" } 5
        (bareDay 5)).days :=
  ⟨C10_add_day_position.1 { days := [bareDay 1, bareDay 9], mensa_name := str "N" }
      5 (bareDay 5) (by decide) (by decide),
    C10_add_day_position.2.1 { days := [bareDay 1, bareDay 9], mensa_name := str "N" }
      5 (bareDay 5) (by decide) (by decide)⟩

/-- C3 counterexample: a payload whose date strings all parse but repeat
the date 2024-01-02 converts successfully into a plan whose day sequence
has duplicate dates and is not strictly sorted. -/
theorem C3_counterexample :
    dupPayload.result.all (fun r => (parseDateIso r.tag.datum_iso).isSome) = true ∧
    (MealPlan.tryFrom dupPayload).map (fun p => p.days.map MealDay.date) =
      Except.ok [20240102, 20240102] ∧
    ¬ ([20240102, 20240102] : List Nat).Nodup ∧
    ¬ List.Pairwise (fun a b : Nat => a < b) [20240102, 20240102] := by
  exact ⟨rfl, rfl, by decide, by decide⟩

/-- C3 (amended): a raw payload whose date strings all parse converts
successfully; the day sequence of any produced plan is sorted by date ascending
(non-strictly — upstream repeating a date yields duplicate days), and it
is strictly sorted without duplicates whenever the produced dates are
pairwise distinct; if any date string fails strict parsing, the conversion
fails with a date-parse error naming an unparseable date string. -/
theorem C3_tryfrom_sorted :
    (∀ v : ApiResult,
      (∀ r ∈ v.result, (parseDateIso r.tag.datum_iso).isSome) →
      ∃ plan, MealPlan.tryFrom v = Except.ok plan) ∧
    (∀ (v : ApiResult) (plan : MealPlan),
      MealPlan.tryFrom v = Except.ok plan →
      List.Pairwise (fun a b => a.date ≤ b.date) plan.days ∧
      ((plan.days.map MealDay.date).Nodup →
        List.Pairwise (fun a b => a.date < b.date) plan.days)) ∧
    (∀ (v : ApiResult) (r : ApiPlan), r ∈ v.result →
      parseDateIso r.tag.datum_iso = none →
      ∃ s, MealPlan.tryFrom v =
          Except.error (MealPlanParseError.InvalidDate s) ∧
        parseDateIso s = none) := by
  refine ⟨?_, ?_, ?_⟩
  · intro v hv
    obtain ⟨days, hd⟩ := collectDays_isOk v.result hv
    exact ⟨{ days := sortByDate days, mensa_name := v.mensaname },
      by simp [MealPlan.tryFrom, hd]⟩
  · intro v plan h
    rcases hc : collectDays v.result with e | days
    · simp only [MealPlan.tryFrom, hc] at h
      exact Except.noConfusion h
    · simp only [MealPlan.tryFrom, hc] at h
      injection h with h
      have hdays : plan.days = sortByDate days := by rw [← h]
      rw [hdays]
      refine ⟨sortByDate_sorted days, ?_⟩
      intro hnd
      rw [← hdays] at hnd
      rw [hdays] at hnd
      exact sorted_lt_of_le_nodup (sortByDate_sorted days) hnd
  · intro v r hr hnone
    obtain ⟨s, hs, hns⟩ := collectDays_error v.result r hr hnone
    exact ⟨s, by simp [MealPlan.tryFrom, hs], hns⟩

/-- C3 witness: the three clauses of the amended claim applied to the
concrete payloads: the well-formed one-day payload converts, its plan is
sorted, and the payload with the unparseable date string "garbage" fails
with the date-parse error. -/
theorem C3_tryfrom_sorted_witness :
    (∃ plan, MealPlan.tryFrom oneDayPayload = Except.ok plan) ∧
    (List.Pairwise (fun a b => a.date ≤ b.date) planOne.days ∧
      ((planOne.days.map MealDay.date).Nodup →
        List.Pairwise (fun a b => a.date < b.date) planOne.days)) ∧
    (∃ s, MealPlan.tryFrom badPayload =
        Except.error (MealPlanParseError.InvalidDate s) ∧
      parseDateIso s = none) :=
  ⟨C3_tryfrom_sorted.1 oneDayPayload (by decide),
    C3_tryfrom_sorted.2.1 oneDayPayload planOne (by rfl),
    C3_tryfrom_sorted.2.2 badPayload (dayRecord "garbage") (by decide)
      (by decide)⟩

/-- C7: a parsed meal carries a price exactly when the upstream flag is
set and all three tiers parse; when present it is the triple of parsed
tiers; the remaining meal fields are produced regardless, and a day record
with a parseable date converts to a day containing all of its meals,
whatever happens to their prices. -/
theorem C7_price_presence :
    (∀ meal : ApiMeal, ((convertMeal meal).price).isSome =
      (meal.preis_vorhanden && (Price.parse meal.preis1).isSome &&
        (Price.parse meal.preis2).isSome &&
        (Price.parse meal.preis3).isSome)) ∧
    (∀ (meal : ApiMeal) (p1 p2 p3 : Price), meal.preis_vorhanden = true →
      Price.parse meal.preis1 = some p1 →
      Price.parse meal.preis2 = some p2 →
      Price.parse meal.preis3 = some p3 →
      (convertMeal meal).price =
        some { students := p1, servants := p2, guests := p3 }) ∧
    (∀ meal : ApiMeal,
      (convertMeal meal).title = meal.title_clean ∧
      (convertMeal meal).info = MealInfo.parse meal.kennzeichnungen ∧
      (convertMeal meal).id = meal.attributes.artikel_id) ∧
    (∀ (v : ApiPlan) (d : Nat), parseDateIso v.tag.datum_iso = some d →
      convertDay v = Except.ok { date := d, categories := groupMeals v.essen } ∧
      ((groupMeals v.essen).map (fun p => p.2.length)).sum = v.essen.length) := by
  refine ⟨?_, ?_, ?_, ?_⟩
  · intro meal
    cases hb : meal.preis_vorhanden
    · simp [convertMeal, hb]
    · rcases h1 : Price.parse meal.preis1 with _ | p1 <;>
        rcases h2 : Price.parse meal.preis2 with _ | p2 <;>
        rcases h3 : Price.parse meal.preis3 with _ | p3 <;>
        simp [convertMeal, hb, h1, h2, h3]
  · intro meal p1 p2 p3 hb h1 h2 h3
    simp [convertMeal, hb, h1, h2, h3]
  · intro meal
    exact ⟨rfl, rfl, rfl⟩
  · intro v d hd
    exact ⟨by simp [convertDay, hd], groupMeals_sum v.essen⟩

/-- C7 witness: the price-triple clause applied to a concrete meal with
the flag set and three parsing tiers, and the day-level clause applied to
the concrete one-day record. -/
theorem C7_price_presence_witness :
    (convertMeal mealW).price =
      some { students := { eur := 3, cent := 50 },
             servants := { eur := 2, cent := 0 },
             guests := { eur := 4, cent := 10 } } ∧
    (convertDay (dayRecord "2024-01-02") =
      Except.ok { date := 20240102,
                  categories := groupMeals (dayRecord "2024-01-02").essen } ∧
    ((groupMeals (dayRecord "2024-01-02").essen).map
        (fun p => p.2.length)).sum = (dayRecord "2024-01-02").essen.length) :=
  ⟨C7_price_presence.2.1 mealW { eur := 3, cent := 50 } { eur := 2, cent := 0 }
      { eur := 4, cent := 10 } rfl (by decide) (by decide) (by decide),
    C7_price_presence.2.2.2 (dayRecord "2024-01-02") 20240102 (by decide)⟩

/-- C1 counterexample: with a durable store configured, a memory miss
followed by a clean durable miss returns "not found" after zero upstream
fetches and leaves the cache untouched, even though the upstream payload
contains the requested day — the claimed fall-through from the durable
tier to the upstream tier does not happen. -/
theorem C1_counterexample :
    MealPlanManager.get_day emptyCache (some (Except.ok none))
      (Except.ok oneDayPayload) (str "m1") none 20240102 =
      (none, emptyCache, 0) ∧
    (MealPlan.tryFrom oneDayPayload).map
      (fun p => (p.get_day_internal 20240102).isSome) = Except.ok true := by
  exact ⟨rfl, rfl⟩

/-- C1 (amended): get_day consults the memory tier first and answers hits
from it with no fetch; on a miss, when a durable store is configured, the
durable answer is returned directly with zero upstream fetches — a read
failure is treated as a miss, and in both cases the upstream tier is never
consulted; only when no durable store is configured does the miss fall
through to exactly one full upstream fetch, whose plan is cached as a side
effect (making the day retrievable from memory afterwards) and the
requested day extracted, while a transport or parse failure yields "not
found". -/
theorem C1_get_day_tiers :
    (∀ data coll up mensa lang day v,
      MealPlanManager.get_day_internal data mensa lang day = some v →
      MealPlanManager.get_day data coll up mensa lang day =
        (some v, data, 0)) ∧
    (∀ data dbRead up mensa lang day,
      MealPlanManager.get_day_internal data mensa lang day = none →
      MealPlanManager.get_day data (some dbRead) up mensa lang day =
        ((match dbRead with
          | Except.ok v => v
          | Except.error _ => none), data, 0)) ∧
    (∀ data up mensa lang day raw plan,
      MealPlanManager.get_day_internal data mensa lang day = none →
      up = Except.ok raw → MealPlan.tryFrom raw = Except.ok plan →
      MealPlanManager.get_day data none up mensa lang day =
        (plan.get_day_internal day, data.insert mensa lang plan, 1) ∧
      MealPlanManager.get_day_internal (data.insert mensa lang plan) mensa
        lang day = plan.get_day_internal day) ∧
    (∀ data mensa lang day e,
      MealPlanManager.get_day_internal data mensa lang day = none →
      MealPlanManager.get_day data none (Except.error e) mensa lang day =
        (none, data, 1)) ∧
    (∀ data mensa lang day raw e,
      MealPlanManager.get_day_internal data mensa lang day = none →
      MealPlan.tryFrom raw = Except.error e →
      MealPlanManager.get_day data none (Except.ok raw) mensa lang day =
        (none, data, 1)) := by
  refine ⟨?_, ?_, ?_, ?_, ?_⟩
  · intro data coll up mensa lang day v h
    simp [MealPlanManager.get_day, h]
  · intro data dbRead up mensa lang day h
    simp [MealPlanManager.get_day, h]
  · intro data up mensa lang day raw plan h hup htf
    subst hup
    constructor
    · simp [MealPlanManager.get_day, h, MealPlanManager.fetch_plan, htf,
        MealPlanManager.store_plan]
    · simp [MealPlanManager.get_day_internal, MealPlans.get, MealPlans.insert,
        lookupKey_insertKey]
  · intro data mensa lang day e h
    simp [MealPlanManager.get_day, h, MealPlanManager.fetch_plan]
  · intro data mensa lang day raw e h htf
    simp [MealPlanManager.get_day, h, MealPlanManager.fetch_plan, htf]

/-- C1 witness: the five clauses of the amended claim applied at concrete
inputs — a warm cache hit, a configured durable store failing its read, a
cold cache with a fetchable one-day payload, a transport failure, and an
unparseable payload. -/
theorem C1_get_day_tiers_witness :
    MealPlanManager.get_day
      (MealPlans.insert emptyCache (str "m1") none planOne) none
      (Except.error ()) (str "m1") none 20240102 =
      (some (bareDay 20240102),
        MealPlans.insert emptyCache (str "m1") none planOne, 0) ∧
    MealPlanManager.get_day emptyCache (some (Except.error ()))
      (Except.ok oneDayPayload) (str "m1") none 20240102 =
      (none, emptyCache, 0) ∧
    (MealPlanManager.get_day emptyCache none (Except.ok oneDayPayload)
      (str "m1") none 20240102 =
      (planOne.get_day_internal 20240102,
        emptyCache.insert (str "m1") none planOne, 1) ∧
     MealPlanManager.get_day_internal
      (emptyCache.insert (str "m1") none planOne) (str "m1") none 20240102 =
      planOne.get_day_internal 20240102) ∧
    MealPlanManager.get_day emptyCache none (Except.error ()) (str "m1")
      none 20240102 = (none, emptyCache, 1) ∧
    MealPlanManager.get_day emptyCache none (Except.ok badPayload)
      (str "m1") none 20240102 = (none, emptyCache, 1) :=
  ⟨C1_get_day_tiers.1 (MealPlans.insert emptyCache (str "m1") none planOne)
      none (Except.error ()) (str "m1") none 20240102 (bareDay 20240102)
      (by decide),
    C1_get_day_tiers.2.1 emptyCache (Except.error ())
      (Except.ok oneDayPayload) (str "m1") none 20240102 (by decide),
    C1_get_day_tiers.2.2.1 emptyCache (Except.ok oneDayPayload) (str "m1")
      none 20240102 oneDayPayload planOne (by decide) rfl (by rfl),
    C1_get_day_tiers.2.2.2.1 emptyCache (str "m1") none 20240102 ()
      (by decide),
    C1_get_day_tiers.2.2.2.2 emptyCache (str "m1") none 20240102 badPayload
      (MealPlanParseError.InvalidDate (str "garbage")) (by decide) (by rfl)⟩

/-- C8: evaluation of fetch_all at the failing input.  Over the empty
cache it performs zero fetches and completes; a failing fetch does not
abort the sweep (both pairs of a two-pair cache are attempted in order);
but for a cache whose one known pair is (facility "mensa1", language "de")
the single fetch is issued with the components swapped — facility "de",
language "mensa1" — instead of re-fetching the known pair. -/
theorem C8_fetch_all_eval :
    MealPlanManager.fetch_all emptyCache (fun _ _ => Except.error ()) =
      (emptyCache, []) ∧
    (MealPlanManager.fetch_all swappedCache (fun _ _ => Except.error ())).2 =
      [(str "de", some (str "mensa1"))] ∧
    (MealPlanManager.fetch_all twoPairCache (fun _ _ => Except.error ())).2 =
      [(str "de", some (str "m1")), (str "fr", some (str "m2"))] := by
  exact ⟨rfl, rfl, rfl⟩

end Mensa
